import Mathlib

/-!
Verification of the AWS pricing agent (`ratio_aws/agents/pricing/runtime/run.py`).

The Python module is embedded shallowly:

* Python `dict`s (the filter mapping and parsed JSON price documents) become
  association lists `StrDict` with Python assignment semantics (`dictSet`
  updates an existing key in place, otherwise appends).
* `_snake_to_camel` and `normalize_filters_for_service` are translated
  directly; `str.split("_")` and `str.capitalize()` are modelled at the
  character-list level (`splitOnChar`, `pyCapitalize`).
* The boto3 pricing client and `json.loads` are external collaborators: a
  `PricingAPI` record supplies, for each `get_products` query, the list of
  pages (each a list of raw strings), and a parse oracle standing for
  `json.loads` (`none` models `json.JSONDecodeError`).
* `handler` becomes a pure function from the event, the API oracle, the
  working directory and the generated uuid token to a `HandlerOutcome`
  recording the side effects: the query calls issued, the `put_file` call,
  and either the success response or the raised error.
-/

namespace AwsPricing

/-- A Python `dict` with string keys and string values, as an association
list in insertion order. -/
abbrev StrDict := List (String × String)

/-- Python `d[k] = v`: update an existing key in place (keeping its
position), otherwise append the new binding. -/
def dictSet : StrDict → String → String → StrDict
  | [], k, v => [(k, v)]
  | p :: rest, k, v =>
    if p.1 = k then (k, v) :: rest else p :: dictSet rest k v

/-- Python `d.get(k)`: the value bound to the first occurrence of `k`. -/
def dictGet? (d : StrDict) (k : String) : Option String :=
  (d.find? (fun p => p.1 = k)).map Prod.snd

/-- The keys of a dict, in order. -/
def dictKeys (d : StrDict) : List String :=
  d.map Prod.fst

/-- Python `s.split(sep)` for a one-character separator, on the character
list: `"" ↦ [""]`, `"_" ↦ ["", ""]`, `"a_b" ↦ ["a", "b"]`. -/
def splitOnChar (sep : Char) : List Char → List (List Char)
  | [] => [[]]
  | c :: rest =>
    let r := splitOnChar sep rest
    if c = sep then [] :: r
    else
      match r with
      | [] => [[c]]
      | piece :: pieces => (c :: piece) :: pieces

/-- Python `s.capitalize()`: first character upper-cased, the rest
lower-cased (basic-latin model). -/
def pyCapitalize : List Char → List Char
  | [] => []
  | c :: rest => c.toUpper :: rest.map Char.toLower

/-- `_snake_to_camel` on the character list: strings without `'_'` pass
through unchanged; otherwise the first `split("_")` component is kept and
the remaining components are capitalized and concatenated. -/
def snakeToCamelL (l : List Char) : List Char :=
  if '_' ∈ l then
    match splitOnChar '_' l with
    | [] => []
    | piece :: pieces => piece ++ (pieces.map pyCapitalize).flatten
  else l

/-- `_snake_to_camel` from `run.py`. -/
def snakeToCamel (s : String) : String :=
  String.mk (snakeToCamelL s.data)

/-- `normalize_filters_for_service` from `run.py`: rebuild the dict with
each key converted by `_snake_to_camel` (`if not filters: return {}` is the
empty guard). -/
def normalize_filters_for_service (filters : StrDict) : StrDict :=
  if filters.isEmpty then []
  else filters.foldl (fun normalized p => dictSet normalized (snakeToCamel p.1) p.2) []

/-- `REGION_MAPPING` from `run.py`: AWS region codes to Pricing API display
names. -/
def REGION_MAPPING : List (String × String) :=
  [ ("us-east-1", "US East (N. Virginia)"),
    ("us-east-2", "US East (Ohio)"),
    ("us-west-1", "US West (N. California)"),
    ("us-west-2", "US West (Oregon)"),
    ("eu-west-1", "Europe (Ireland)"),
    ("eu-west-2", "Europe (London)"),
    ("eu-west-3", "Europe (Paris)"),
    ("eu-central-1", "Europe (Frankfurt)"),
    ("eu-north-1", "Europe (Stockholm)"),
    ("ap-southeast-1", "Asia Pacific (Singapore)"),
    ("ap-southeast-2", "Asia Pacific (Sydney)"),
    ("ap-northeast-1", "Asia Pacific (Tokyo)"),
    ("ap-northeast-2", "Asia Pacific (Seoul)"),
    ("ap-south-1", "Asia Pacific (Mumbai)"),
    ("ca-central-1", "Canada (Central)"),
    ("sa-east-1", "South America (Sao Paulo)") ]

/-- `region in REGION_MAPPING` / `REGION_MAPPING[region]`. -/
def regionLookup? (region : String) : Option String :=
  (REGION_MAPPING.find? (fun p => p.1 = region)).map Prod.snd

/-- The errors the handler can raise: the typed `PricingError`, or the raw
`IndexError` from `region_display_names[0]` on an empty list. -/
inductive HandlerError where
  | pricingError (msg : String)
  | indexError
deriving DecidableEq, Repr

/-- The region-resolution loop of `handler`: map every code through
`REGION_MAPPING`, raising `PricingError` at the first unknown code. -/
def resolveRegions : List String → Except HandlerError (List String)
  | [] => Except.ok []
  | region :: rest =>
    match regionLookup? region with
    | some display =>
      match resolveRegions rest with
      | Except.ok tail => Except.ok (display :: tail)
      | Except.error e => Except.error e
    | none => Except.error (HandlerError.pricingError ("Unknown region: " ++ region))

/-- One entry of the `Filters` list sent to the API:
`Type/Field/Value`. -/
structure ApiFilter where
  type : String
  field : String
  value : String
deriving DecidableEq, Repr

/-- One `paginator.paginate(...)` call: the arguments the handler passes. -/
structure QueryCall where
  serviceCode : String
  filters : List ApiFilter
  maxResults : Nat
deriving DecidableEq, Repr

/-- The external collaborators: the pricing catalog (pages of raw strings
for each query) and `json.loads` (a parsed string-map, or `none` for a
`JSONDecodeError`). -/
structure PricingAPI where
  getProducts : String → List ApiFilter → Nat → List (List String)
  parse : String → Option StrDict

/-- `query_filters = final_filters.copy(); query_filters["location"] = region_name`. -/
def queryFiltersFor (finalFilters : StrDict) (regionName : String) : StrDict :=
  dictSet finalFilters "location" regionName

/-- The `api_filters` list built from `query_filters`. -/
def buildApiFilters (queryFilters : StrDict) : List ApiFilter :=
  queryFilters.map (fun p => ⟨"TERM_MATCH", p.1, p.2⟩)

/-- The per-record body of the page loop: `json.loads`, then
`price_data["queryRegion"] = region_name`; `none` is the skipped
(malformed) case. -/
def parseAndTag (parse : String → Option StrDict) (regionName raw : String) :
    Option StrDict :=
  (parse raw).map (fun doc => dictSet doc "queryRegion" regionName)

/-- The `QueryCall` the handler issues for one region. -/
def queryCallFor (serviceCode : String) (finalFilters : StrDict) (maxRecords : Nat)
    (regionName : String) : QueryCall :=
  ⟨serviceCode, buildApiFilters (queryFiltersFor finalFilters regionName), maxRecords⟩

/-- The `region_records` collected for one region: every page of the
paginator, every parseable raw record, tagged with the region. -/
def fetchRegionRecords (api : PricingAPI) (serviceCode : String)
    (finalFilters : StrDict) (maxRecords : Nat) (regionName : String) :
    List StrDict :=
  let pages := api.getProducts serviceCode
    (buildApiFilters (queryFiltersFor finalFilters regionName)) maxRecords
  (pages.map (fun page => page.filterMap (parseAndTag api.parse regionName))).flatten

/-- The `detailed_results` dictionary persisted to the result file. -/
structure ResultEnvelope where
  service_code : String
  regions_queried : List String
  filters_applied : StrDict
  record_count : Nat
  pricing_records : List StrDict
deriving DecidableEq, Repr

/-- The `metadata` argument of `system.put_file`. -/
structure FileMetadata where
  service_code : String
  regions : List String
  record_count : Nat
deriving DecidableEq, Repr

/-- The `system.put_file` call (the serialized `data` kept structured). -/
structure PutFileCall where
  file_path : String
  file_type : String
  data : ResultEnvelope
  metadata : FileMetadata
deriving DecidableEq, Repr

/-- The `response_body` passed to `system.success`. -/
structure Response where
  pricing_records : List StrDict
  result_file_path : String
  service_code : String
  regions_queried : List String
  record_count : Nat
  filters_applied : StrDict
deriving DecidableEq, Repr

/-- The event payload: `service_code` is required, the rest carry the
`system.arguments.get` defaults when absent. -/
structure Event where
  service_code : String
  regions : Option (List String) := none
  filters : Option StrDict := none
  max_records : Option Nat := none
  result_file_path : Option String := none

/-- Everything observable about one invocation: the query calls issued (in
order), the `put_file` call if reached, and the success response or raised
error. -/
structure HandlerOutcome where
  queries : List QueryCall
  putFile : Option PutFileCall
  result : Except HandlerError Response
deriving Repr

/-- `os.path.join(a, b)` for the two-argument case used in `run.py`. -/
def osPathJoin (a b : String) : String :=
  if b.data.head? = some '/' then b
  else if a = "" ∨ a.data.getLast? = some '/' then a ++ b
  else a ++ "/" ++ b

/-- The `final_filters` dict after the single-region merge: the normalized
caller filters, with `location` assigned before the loop when exactly one
display name resolved (`ds` is `region_display_names`). -/
def finalFiltersFor (event : Event) (ds : List String) : StrDict :=
  let final_filters₀ := normalize_filters_for_service (event.filters.getD [])
  if ds.length = 1 then dictSet final_filters₀ "location" (ds.headD "")
  else final_filters₀

/-- The `all_pricing_records` aggregate: each region's records in
region-iteration order, concatenated. -/
def aggregateRecords (event : Event) (api : PricingAPI) (rq : List String) :
    List StrDict :=
  (rq.map (fetchRegionRecords api event.service_code
    (finalFiltersFor event rq) (event.max_records.getD 50))).flatten

/-- The tail of `handler` once the display names resolved and
`regions_to_query` is known: the per-region query loop, the result file,
`put_file`, and the success response.  `ds` is `region_display_names`,
`rq` is `regions_to_query`. -/
def handlerWithRegions (event : Event) (api : PricingAPI)
    (workingDirectory uuidToken : String) (ds rq : List String) :
    HandlerOutcome :=
  let service_code := event.service_code
  let regions := event.regions.getD ["us-east-1"]
  let max_records := event.max_records.getD 50
  let final_filters := finalFiltersFor event ds
  let queries := rq.map (queryCallFor service_code final_filters max_records)
  let all_pricing_records :=
    (rq.map (fetchRegionRecords api service_code final_filters max_records)).flatten
  let defaultPath :=
    osPathJoin workingDirectory
      ("aws_pricing_" ++ service_code ++ "_" ++ uuidToken ++ ".json")
  let result_file_path :=
    match event.result_file_path with
    | some p => if p = "" then defaultPath else p
    | none => defaultPath
  let detailed_results : ResultEnvelope :=
    ⟨service_code, regions, final_filters, all_pricing_records.length,
      all_pricing_records⟩
  let put : PutFileCall :=
    ⟨result_file_path, "ratio::file", detailed_results,
      ⟨service_code, regions, all_pricing_records.length⟩⟩
  let summary_records :=
    if 10 < all_pricing_records.length then all_pricing_records.take 10
    else all_pricing_records
  let response : Response :=
    ⟨summary_records, result_file_path, service_code, regions,
      all_pricing_records.length, final_filters⟩
  ⟨queries, some put, Except.ok response⟩

/-- `handler` after region resolution: `regions_to_query` is the display
list when more than one, otherwise `[region_display_names[0]]`, which on an
empty list raises `IndexError`. -/
def handlerResolved (event : Event) (api : PricingAPI)
    (workingDirectory uuidToken : String) (ds : List String) : HandlerOutcome :=
  if 1 < ds.length then
    handlerWithRegions event api workingDirectory uuidToken ds ds
  else if ds.isEmpty then ⟨[], none, Except.error HandlerError.indexError⟩
  else handlerWithRegions event api workingDirectory uuidToken ds [ds.headD ""]

/-- `handler` from `run.py` as a pure function of the event, the API
oracle, the working directory and the generated uuid token. -/
def handler (event : Event) (api : PricingAPI)
    (workingDirectory uuidToken : String) : HandlerOutcome :=
  match resolveRegions (event.regions.getD ["us-east-1"]) with
  | Except.error e => ⟨[], none, Except.error e⟩
  | Except.ok ds => handlerResolved event api workingDirectory uuidToken ds

/-! ## Dictionary lemmas -/

theorem mem_dictSet_self (d : StrDict) (k v : String) : (k, v) ∈ dictSet d k v := by
  induction d with
  | nil => simp [dictSet]
  | cons p rest ih =>
    by_cases h : p.1 = k <;> simp [dictSet, h, ih]

theorem dictGet_dictSet_self (d : StrDict) (k v : String) :
    dictGet? (dictSet d k v) k = some v := by
  induction d with
  | nil => simp [dictSet, dictGet?]
  | cons p rest ih =>
    by_cases h : p.1 = k
    · simp [dictSet, dictGet?, h]
    · simp only [dictSet, if_neg h]
      simpa [dictGet?, List.find?_cons, h] using ih

theorem dictSet_dictSet_same (d : StrDict) (k v w : String) :
    dictSet (dictSet d k v) k w = dictSet d k w := by
  induction d with
  | nil => simp [dictSet]
  | cons p rest ih =>
    by_cases h : p.1 = k <;> simp [dictSet, h, ih]

theorem dictSet_eq_append_of_not_mem (d : StrDict) (k v : String)
    (h : k ∉ dictKeys d) : dictSet d k v = d ++ [(k, v)] := by
  induction d with
  | nil => simp [dictSet]
  | cons p rest ih =>
    simp only [dictKeys, List.map_cons, List.mem_cons] at h
    push_neg at h
    have hpk : ¬ p.1 = k := fun hh => h.1 hh.symm
    simp [dictSet, hpk, ih (by simpa [dictKeys] using h.2)]

theorem mem_dictKeys_dictSet (d : StrDict) (k v a : String) :
    a ∈ dictKeys (dictSet d k v) ↔ a ∈ dictKeys d ∨ a = k := by
  induction d with
  | nil => simp [dictSet, dictKeys]
  | cons p rest ih =>
    by_cases h : p.1 = k
    · subst h
      simp [dictSet, dictKeys]
      tauto
    · simp only [dictSet, if_neg h, dictKeys, List.map_cons, List.mem_cons]
      rw [show (dictSet rest k v).map Prod.fst = dictKeys (dictSet rest k v) from rfl, ih]
      simp [dictKeys]
      tauto

theorem nodup_dictKeys_dictSet (d : StrDict) (k v : String)
    (h : (dictKeys d).Nodup) : (dictKeys (dictSet d k v)).Nodup := by
  induction d with
  | nil => simp [dictSet, dictKeys]
  | cons p rest ih =>
    simp only [dictKeys, List.map_cons, List.nodup_cons] at h
    by_cases hk : p.1 = k
    · subst hk
      simpa [dictSet, dictKeys, List.nodup_cons] using h
    · have hstep : dictSet (p :: rest) k v = p :: dictSet rest k v := by
        simp [dictSet, hk]
      rw [hstep]
      simp only [dictKeys, List.map_cons, List.nodup_cons]
      constructor
      · intro hm
        rcases (mem_dictKeys_dictSet rest k v p.1).mp (by simpa [dictKeys] using hm) with
          hm2 | hm2
        · exact h.1 (by simpa [dictKeys] using hm2)
        · exact hk hm2
      · simpa [dictKeys] using ih h.2

/-! ## Region resolution lemmas -/

theorem resolveRegions_ok_length (rs ds : List String)
    (h : resolveRegions rs = Except.ok ds) : ds.length = rs.length := by
  induction rs generalizing ds with
  | nil =>
    simp [resolveRegions] at h
    simp [← h]
  | cons r rest ih =>
    simp only [resolveRegions] at h
    cases hl : regionLookup? r with
    | none => rw [hl] at h; cases h
    | some display =>
      rw [hl] at h
      cases hr : resolveRegions rest with
      | error e => rw [hr] at h; cases h
      | ok tail =>
        rw [hr] at h
        cases h
        simp [ih tail hr]

theorem resolveRegions_error_of_unknown (rs : List String) (r : String)
    (hmem : r ∈ rs) (hunk : regionLookup? r = none) :
    ∃ r₀, r₀ ∈ rs ∧ regionLookup? r₀ = none ∧
      resolveRegions rs = Except.error
        (HandlerError.pricingError ("Unknown region: " ++ r₀)) := by
  induction rs with
  | nil => cases hmem
  | cons r₁ rest ih =>
    cases hl : regionLookup? r₁ with
    | none =>
      exact ⟨r₁, List.mem_cons_self _ _, hl, by simp [resolveRegions, hl]⟩
    | some display =>
      have hr : r ∈ rest := by
        rcases List.mem_cons.mp hmem with h | h
        · subst h; rw [hl] at hunk; cases hunk
        · exact h
      obtain ⟨r₀, hr₀, hu₀, he₀⟩ := ih hr
      exact ⟨r₀, List.mem_cons_of_mem _ hr₀, hu₀, by simp [resolveRegions, hl, he₀]⟩

/-- On a successfully resolved, non-empty display list, `regions_to_query`
equals the display list itself and the handler runs the success path. -/
theorem handler_eq_handlerWithRegions (event : Event) (api : PricingAPI)
    (wd u : String) (ds : List String)
    (hres : resolveRegions (event.regions.getD ["us-east-1"]) = Except.ok ds)
    (hne : ds ≠ []) :
    handler event api wd u = handlerWithRegions event api wd u ds ds := by
  unfold handler
  rw [hres]
  unfold handlerResolved
  by_cases hlen : 1 < ds.length
  · simp [hlen]
  · match ds, hne with
    | d :: rest, _ =>
      have : rest = [] := by
        cases rest with
        | nil => rfl
        | cons x xs =>
          exact absurd (by simp only [List.length_cons]; omega) hlen
      subst this
      simp

/-! ## Characters: `toUpper`/`toLower` never produce an underscore -/

theorem char_toNat_ofNat {n : Nat} (h : n.isValidChar) : (Char.ofNat n).toNat = n := by
  simp [Char.ofNat, dif_pos h, Char.ofNatAux, Char.toNat, UInt32.toNat, BitVec.toNat_ofNatLt]

theorem toUpper_ne_underscore (c : Char) (hc : c ≠ '_') : c.toUpper ≠ '_' := by
  show (if c.toNat ≥ 97 ∧ c.toNat ≤ 122 then Char.ofNat (c.toNat - 32) else c) ≠ '_'
  by_cases h : c.toNat ≥ 97 ∧ c.toNat ≤ 122
  · rw [if_pos h]
    intro heq
    have hv : Nat.isValidChar (c.toNat - 32) := by
      left
      omega
    have h2 := congrArg Char.toNat heq
    rw [char_toNat_ofNat hv] at h2
    have h95 : ('_').toNat = 95 := by decide
    omega
  · rw [if_neg h]
    exact hc

theorem toLower_ne_underscore (c : Char) (hc : c ≠ '_') : c.toLower ≠ '_' := by
  show (if c.toNat ≥ 65 ∧ c.toNat ≤ 90 then Char.ofNat (c.toNat + 32) else c) ≠ '_'
  by_cases h : c.toNat ≥ 65 ∧ c.toNat ≤ 90
  · rw [if_pos h]
    intro heq
    have hv : Nat.isValidChar (c.toNat + 32) := by
      left
      omega
    have h2 := congrArg Char.toNat heq
    rw [char_toNat_ofNat hv] at h2
    have h95 : ('_').toNat = 95 := by decide
    omega
  · rw [if_neg h]
    exact hc

/-! ## `_snake_to_camel`: split pieces, capitalization, idempotence -/

theorem not_mem_of_mem_splitOnChar (sep : Char) (l : List Char) :
    ∀ piece ∈ splitOnChar sep l, sep ∉ piece := by
  induction l with
  | nil =>
    intro piece hp
    simp [splitOnChar] at hp
    simp [hp]
  | cons c rest ih =>
    intro piece hp
    by_cases hc : c = sep
    · simp only [splitOnChar, if_pos hc] at hp
      rcases List.mem_cons.mp hp with h | h
      · simp [h]
      · exact ih piece h
    · simp only [splitOnChar, if_neg hc] at hp
      cases hr : splitOnChar sep rest with
      | nil =>
        rw [hr] at hp
        simp at hp
        subst hp
        simp [Ne.symm hc]
      | cons q qs =>
        rw [hr] at hp
        rcases List.mem_cons.mp hp with h | h
        · subst h
          intro hmem
          rcases List.mem_cons.mp hmem with h2 | h2
          · exact hc h2.symm
          · exact ih q (hr ▸ List.mem_cons_self _ _) h2
        · exact ih piece (hr ▸ List.mem_cons_of_mem _ h)

theorem not_mem_pyCapitalize (piece : List Char) (h : '_' ∉ piece) :
    '_' ∉ pyCapitalize piece := by
  cases piece with
  | nil => simp [pyCapitalize]
  | cons c rest =>
    simp only [pyCapitalize, List.mem_cons, not_or] at h ⊢
    constructor
    · exact fun heq => toUpper_ne_underscore c (fun hh => h.1 hh.symm) heq.symm
    · intro hmem
      rcases List.mem_map.mp hmem with ⟨x, hx, hlow⟩
      exact toLower_ne_underscore x (fun hh => h.2 (hh ▸ hx)) hlow

theorem not_mem_snakeToCamelL (l : List Char) : '_' ∉ snakeToCamelL l := by
  by_cases hmem : '_' ∈ l
  · simp only [snakeToCamelL, if_pos hmem]
    cases hs : splitOnChar '_' l with
    | nil => simp
    | cons piece pieces =>
      intro hin
      rcases List.mem_append.mp hin with h | h
      · exact not_mem_of_mem_splitOnChar '_' l piece
          (hs ▸ List.mem_cons_self _ _) h
      · rcases List.mem_flatten.mp h with ⟨cap, hcap, hc⟩
        rcases List.mem_map.mp hcap with ⟨q, hq, hcapq⟩
        exact not_mem_pyCapitalize q
          (not_mem_of_mem_splitOnChar '_' l q (hs ▸ List.mem_cons_of_mem _ hq))
          (hcapq ▸ hc)
  · simpa [snakeToCamelL, if_neg hmem] using hmem

theorem snakeToCamelL_of_not_mem (l : List Char) (h : '_' ∉ l) :
    snakeToCamelL l = l := by
  simp [snakeToCamelL, if_neg h]

theorem snakeToCamelL_idem (l : List Char) :
    snakeToCamelL (snakeToCamelL l) = snakeToCamelL l :=
  snakeToCamelL_of_not_mem _ (not_mem_snakeToCamelL l)

theorem snakeToCamel_of_not_mem (s : String) (h : '_' ∉ s.data) :
    snakeToCamel s = s := by
  cases s with
  | mk l => simp [snakeToCamel, snakeToCamelL_of_not_mem l h]

theorem snakeToCamel_idem (s : String) :
    snakeToCamel (snakeToCamel s) = snakeToCamel s := by
  simp [snakeToCamel, snakeToCamelL_idem]

/-! ## `normalize_filters_for_service` -/

theorem foldl_dictSet_normalize (f : StrDict) :
    ∀ acc : StrDict,
      (f.map (fun p => snakeToCamel p.1)).Nodup →
      (∀ p ∈ f, snakeToCamel p.1 ∉ dictKeys acc) →
      f.foldl (fun normalized p => dictSet normalized (snakeToCamel p.1) p.2) acc
        = acc ++ f.map (fun p => (snakeToCamel p.1, p.2)) := by
  induction f with
  | nil => simp
  | cons p rest ih =>
    intro acc hnd hdisj
    simp only [List.map_cons, List.nodup_cons] at hnd
    simp only [List.foldl_cons]
    rw [dictSet_eq_append_of_not_mem acc (snakeToCamel p.1) p.2
      (hdisj p (List.mem_cons_self _ _))]
    rw [ih (acc ++ [(snakeToCamel p.1, p.2)]) hnd.2 ?_]
    · simp
    · intro q hq hmem
      have hmem2 : snakeToCamel q.1 ∈ dictKeys acc ∨ snakeToCamel q.1 = snakeToCamel p.1 := by
        simpa [dictKeys] using hmem
      rcases hmem2 with h | h
      · exact hdisj q (List.mem_cons_of_mem _ hq) h
      · exact hnd.1 (h ▸ List.mem_map.mpr ⟨q, hq, rfl⟩)

theorem mem_dictKeys_foldl (f : StrDict) :
    ∀ (acc : StrDict) (k : String),
      k ∈ dictKeys
        (f.foldl (fun normalized p => dictSet normalized (snakeToCamel p.1) p.2) acc) →
      k ∈ dictKeys acc ∨ ∃ p ∈ f, k = snakeToCamel p.1 := by
  induction f with
  | nil =>
    intro acc k h
    exact Or.inl h
  | cons p rest ih =>
    intro acc k h
    simp only [List.foldl_cons] at h
    rcases ih _ k h with hm | ⟨q, hq, hk⟩
    · rcases (mem_dictKeys_dictSet acc (snakeToCamel p.1) p.2 k).mp hm with hm2 | hm2
      · exact Or.inl hm2
      · exact Or.inr ⟨p, List.mem_cons_self _ _, hm2⟩
    · exact Or.inr ⟨q, List.mem_cons_of_mem _ hq, hk⟩

theorem nodup_dictKeys_foldl (f : StrDict) :
    ∀ acc : StrDict, (dictKeys acc).Nodup →
      (dictKeys
        (f.foldl (fun normalized p => dictSet normalized (snakeToCamel p.1) p.2) acc)).Nodup := by
  induction f with
  | nil =>
    intro acc h
    exact h
  | cons p rest ih =>
    intro acc h
    simp only [List.foldl_cons]
    exact ih _ (nodup_dictKeys_dictSet acc (snakeToCamel p.1) p.2 h)

theorem normalize_eq_map_of_nodup (f : StrDict)
    (hnd : (f.map (fun p => snakeToCamel p.1)).Nodup) :
    normalize_filters_for_service f = f.map (fun p => (snakeToCamel p.1, p.2)) := by
  cases f with
  | nil => simp [normalize_filters_for_service]
  | cons p rest =>
    unfold normalize_filters_for_service
    rw [if_neg (by simp)]
    exact foldl_dictSet_normalize (p :: rest) [] hnd (by simp [dictKeys])

theorem nodup_dictKeys_normalize (f : StrDict) :
    (dictKeys (normalize_filters_for_service f)).Nodup := by
  unfold normalize_filters_for_service
  by_cases h : f.isEmpty
  · simp [h, dictKeys]
  · rw [if_neg h]
    exact nodup_dictKeys_foldl f [] (by simp [dictKeys])

theorem mem_dictKeys_normalize (f : StrDict) (k : String)
    (h : k ∈ dictKeys (normalize_filters_for_service f)) :
    ∃ p ∈ f, k = snakeToCamel p.1 := by
  unfold normalize_filters_for_service at h
  by_cases he : f.isEmpty
  · rw [if_pos he] at h
    simp [dictKeys] at h
  · rw [if_neg he] at h
    rcases mem_dictKeys_foldl f [] k h with hm | hm
    · simp [dictKeys] at hm
    · exact hm

theorem snakeToCamel_fixed_of_mem_normalize (f : StrDict) (k : String)
    (h : k ∈ dictKeys (normalize_filters_for_service f)) :
    snakeToCamel k = k := by
  rcases mem_dictKeys_normalize f k h with ⟨p, _, hk⟩
  rw [hk, snakeToCamel_idem]

/-! ## Claim theorems -/

/-- C9: filter normalization is idempotent: applying
`normalize_filters_for_service` a second time to its own output produces no
further change, because the output keys contain no separators and pass
through unchanged. -/
theorem normalize_filters_idempotent (f : StrDict) :
    normalize_filters_for_service (normalize_filters_for_service f)
      = normalize_filters_for_service f := by
  have hfix : ∀ p ∈ normalize_filters_for_service f, snakeToCamel p.1 = p.1 := by
    intro p hp
    exact snakeToCamel_fixed_of_mem_normalize f p.1 (List.mem_map.mpr ⟨p, hp, rfl⟩)
  have hmapeq : (normalize_filters_for_service f).map (fun p => snakeToCamel p.1)
      = dictKeys (normalize_filters_for_service f) :=
    List.map_congr_left hfix
  have hnd : ((normalize_filters_for_service f).map (fun p => snakeToCamel p.1)).Nodup := by
    rw [hmapeq]
    exact nodup_dictKeys_normalize f
  rw [normalize_eq_map_of_nodup _ hnd]
  conv_rhs => rw [← List.map_id (normalize_filters_for_service f)]
  exact List.map_congr_left (fun p hp => by rw [hfix p hp]; rfl)

/-- C2 counterexample: the distinct caller keys `"a_b"` and `"aB"` both
normalize to `"aB"`, so the key `"a_b"`'s value `"1"` does not survive into
the output — the claim's "maps each key's value unchanged" fails on this
input. -/
theorem normalize_filters_collision_cex :
    ("a_b", "1") ∈ ([("a_b", "1"), ("aB", "2")] : StrDict) ∧
    snakeToCamel "a_b" = "aB" ∧
    normalize_filters_for_service [("a_b", "1"), ("aB", "2")] = [("aB", "2")] ∧
    (snakeToCamel "a_b", "1") ∉ normalize_filters_for_service [("a_b", "1"), ("aB", "2")] := by
  refine ⟨by decide, by decide, by decide, by decide⟩

/-- C2 (amended): when no two caller keys normalize to the same name,
normalization maps each entry to its snake-to-camel key with the value
unchanged; keys without separators pass through unchanged; a key with a
separator becomes its first split segment followed by the remaining
segments capitalized and concatenated, and the output contains no
separator; empty input yields an empty mapping. -/
theorem normalize_filters_camel_spec :
    (∀ f : StrDict, (f.map (fun p => snakeToCamel p.1)).Nodup →
      normalize_filters_for_service f = f.map (fun p => (snakeToCamel p.1, p.2))) ∧
    (∀ s : String, '_' ∉ s.data → snakeToCamel s = s) ∧
    (∀ l : List Char, '_' ∈ l →
      snakeToCamelL l =
        (splitOnChar '_' l).headD []
          ++ (((splitOnChar '_' l).tail).map pyCapitalize).flatten) ∧
    (∀ l : List Char, '_' ∉ snakeToCamelL l) ∧
    normalize_filters_for_service [] = [] := by
  refine ⟨fun f hnd => normalize_eq_map_of_nodup f hnd,
    fun s h => snakeToCamel_of_not_mem s h, ?_, not_mem_snakeToCamelL, rfl⟩
  intro l hmem
  simp only [snakeToCamelL, if_pos hmem]
  cases hs : splitOnChar '_' l with
  | nil => simp
  | cons piece pieces => simp

/-- C2 witness: a two-entry snake_case filter dict normalizes as the
amended claim states. -/
theorem normalize_filters_camel_spec_witness :
    normalize_filters_for_service [("instance_type", "t2.micro"), ("volume_api_name", "gp3")]
      = [("instanceType", "t2.micro"), ("volumeApiName", "gp3")] := by
  rw [normalize_filters_camel_spec.1
    [("instance_type", "t2.micro"), ("volume_api_name", "gp3")] (by decide)]
  decide

/-- Region resolution only ever raises the typed pricing error. -/
theorem resolveRegions_error_pricing (rs : List String) (e : HandlerError)
    (h : resolveRegions rs = Except.error e) :
    ∃ msg, e = HandlerError.pricingError msg := by
  induction rs with
  | nil => simp [resolveRegions] at h
  | cons r rest ih =>
    simp only [resolveRegions] at h
    cases hl : regionLookup? r with
    | none =>
      rw [hl] at h
      exact ⟨"Unknown region: " ++ r, by cases h; rfl⟩
    | some display =>
      rw [hl] at h
      cases hr : resolveRegions rest with
      | error e2 =>
        rw [hr] at h
        cases h
        exact ih hr
      | ok tail =>
        rw [hr] at h
        cases h

/-- A pricing API returning nothing, for concrete witnesses. -/
def emptyApi : PricingAPI :=
  ⟨fun _ _ _ => [], fun _ => none⟩

/-- C3: a regions list containing a code absent from `REGION_MAPPING`
makes the invocation fail with the typed `PricingError` before any
`get_products` query is issued and before any `put_file` call. -/
theorem unknown_region_fail_fast (event : Event) (api : PricingAPI) (wd u : String)
    (rs : List String) (hrs : event.regions = some rs)
    (r : String) (hmem : r ∈ rs) (hunk : regionLookup? r = none) :
    (handler event api wd u).queries = [] ∧
    (handler event api wd u).putFile = none ∧
    ∃ r₀, r₀ ∈ rs ∧ regionLookup? r₀ = none ∧
      (handler event api wd u).result =
        Except.error (HandlerError.pricingError ("Unknown region: " ++ r₀)) := by
  obtain ⟨r₀, h₀, hu₀, he₀⟩ := resolveRegions_error_of_unknown rs r hmem hunk
  unfold handler
  rw [hrs]
  simp only [Option.getD_some]
  rw [he₀]
  exact ⟨rfl, rfl, r₀, h₀, hu₀, rfl⟩

/-- C3 witness: the unknown code `"mars-1"` aborts a two-region request
with the pricing error, no query and no persisted file. -/
theorem unknown_region_fail_fast_witness :
    regionLookup? "mars-1" = none ∧
    (handler ⟨"AmazonEC2", some ["us-east-1", "mars-1"], none, none, none⟩
        emptyApi "/wd" "u").queries = [] ∧
    (handler ⟨"AmazonEC2", some ["us-east-1", "mars-1"], none, none, none⟩
        emptyApi "/wd" "u").putFile = none ∧
    ∃ r₀, r₀ ∈ ["us-east-1", "mars-1"] ∧ regionLookup? r₀ = none ∧
      (handler ⟨"AmazonEC2", some ["us-east-1", "mars-1"], none, none, none⟩
          emptyApi "/wd" "u").result =
        Except.error (HandlerError.pricingError ("Unknown region: " ++ r₀)) := by
  refine ⟨by decide, ?_⟩
  exact unknown_region_fail_fast _ emptyApi "/wd" "u" ["us-east-1", "mars-1"] rfl
    "mars-1" (by decide) (by decide)

/-- C10: with a non-empty regions list the handler's
`region_display_names[0]` indexing is in bounds (no raw index error can be
raised), while an explicitly supplied empty regions list skips both region
branches and fails with the raw index error rather than the typed pricing
error. -/
theorem empty_regions_index_error (event : Event) (api : PricingAPI) (wd u : String)
    (rs : List String) (hrs : event.regions = some rs) :
    (rs = [] →
      handler event api wd u = ⟨[], none, Except.error HandlerError.indexError⟩) ∧
    (rs ≠ [] →
      (handler event api wd u).result ≠ Except.error HandlerError.indexError) := by
  constructor
  · intro hempty
    subst hempty
    unfold handler
    rw [hrs]
    simp only [Option.getD_some]
    rfl
  · intro hne
    cases hres : resolveRegions rs with
    | error e =>
      obtain ⟨msg, hmsg⟩ := resolveRegions_error_pricing rs e hres
      unfold handler
      rw [hrs]
      simp only [Option.getD_some]
      rw [hres, hmsg]
      simp
    | ok ds =>
      have hdne : ds ≠ [] := by
        intro hd
        apply hne
        have := resolveRegions_ok_length rs ds hres
        rw [hd] at this
        exact List.length_eq_zero.mp this.symm
      rw [handler_eq_handlerWithRegions event api wd u ds (by rw [hrs]; simpa using hres) hdne]
      simp [handlerWithRegions]

/-- C10 witness: an explicit empty regions list produces the raw index
error; a singleton list does not. -/
theorem empty_regions_index_error_witness :
    handler ⟨"AmazonEC2", some [], none, none, none⟩ emptyApi "/wd" "u"
        = ⟨[], none, Except.error HandlerError.indexError⟩ ∧
    (handler ⟨"AmazonEC2", some ["us-east-1"], none, none, none⟩ emptyApi "/wd" "u").result
        ≠ Except.error HandlerError.indexError := by
  constructor
  · exact (empty_regions_index_error _ emptyApi "/wd" "u" [] rfl).1 rfl
  · exact (empty_regions_index_error _ emptyApi "/wd" "u" ["us-east-1"] rfl).2
      (by decide)

/-- A pricing API for witnesses: one page per query holding a well-formed
and a malformed raw document, then a second page with one well-formed
document; `"bad"` fails to parse. -/
def testApi : PricingAPI :=
  ⟨fun _ _ _ => [["good1", "bad"], ["good2"]],
    fun s => if s = "bad" then none else some [("sku", s)]⟩

/-- A two-region request with no caller filters, for witnesses. -/
def evMulti : Event :=
  ⟨"AmazonEC2", some ["us-east-1", "eu-west-1"], none, none, none⟩

/-- A single-region request with no caller filters, for witnesses. -/
def evSingle : Event :=
  ⟨"AmazonEC2", some ["us-east-1"], none, none, none⟩

/-- C1: a multi-region request issues exactly one query pass per supplied
region, pass `i` carrying the location term-match for the `i`-th region's
display name, and the persisted aggregate is the concatenation of each
region's records in region-iteration order. -/
theorem multi_region_fanout (event : Event) (api : PricingAPI) (wd u : String)
    (rs ds : List String) (hrs : event.regions = some rs)
    (hres : resolveRegions rs = Except.ok ds) (hlen : 1 < ds.length) :
    (handler event api wd u).queries.length = rs.length ∧
    (∀ i, (hi : i < ds.length) →
      ∃ hq : i < (handler event api wd u).queries.length,
        (⟨"TERM_MATCH", "location", ds.get ⟨i, hi⟩⟩ : ApiFilter)
          ∈ ((handler event api wd u).queries.get ⟨i, hq⟩).filters) ∧
    ∃ pf, (handler event api wd u).putFile = some pf ∧
      pf.data.pricing_records = aggregateRecords event api ds := by
  have hne : ds ≠ [] := by
    intro h
    rw [h] at hlen
    simp at hlen
  have hres2 : resolveRegions (event.regions.getD ["us-east-1"]) = Except.ok ds := by
    rw [hrs, Option.getD_some]
    exact hres
  rw [handler_eq_handlerWithRegions event api wd u ds hres2 hne]
  refine ⟨?_, ?_, ?_⟩
  · simp [handlerWithRegions, resolveRegions_ok_length rs ds hres]
  · intro i hi
    have hq : i < (handlerWithRegions event api wd u ds ds).queries.length := by
      simp [handlerWithRegions]
      exact hi
    refine ⟨hq, ?_⟩
    have hget : (handlerWithRegions event api wd u ds ds).queries.get ⟨i, hq⟩
        = queryCallFor event.service_code (finalFiltersFor event ds)
            (event.max_records.getD 50) (ds.get ⟨i, hi⟩) := by
      simp [handlerWithRegions, List.get_eq_getElem, List.getElem_map]
    rw [hget]
    exact List.mem_map.mpr ⟨("location", ds.get ⟨i, hi⟩),
      mem_dictSet_self _ _ _, rfl⟩
  · exact ⟨_, rfl, rfl⟩

/-- C1 witness: regions `["us-east-1", "eu-west-1"]` with no caller filters
produce exactly the two expected query passes, and the aggregate is the
US-East records followed by the Ireland records. -/
theorem multi_region_fanout_witness :
    (handler evMulti testApi "/wd" "u").queries.length = 2 ∧
    (handler evMulti testApi "/wd" "u").queries =
      [⟨"AmazonEC2", [⟨"TERM_MATCH", "location", "US East (N. Virginia)"⟩], 50⟩,
       ⟨"AmazonEC2", [⟨"TERM_MATCH", "location", "Europe (Ireland)"⟩], 50⟩] ∧
    (handler evMulti testApi "/wd" "u").putFile =
      some ⟨"/wd/aws_pricing_AmazonEC2_u.json", "ratio::file",
        ⟨"AmazonEC2", ["us-east-1", "eu-west-1"], [], 4,
          [[("sku", "good1"), ("queryRegion", "US East (N. Virginia)")],
           [("sku", "good2"), ("queryRegion", "US East (N. Virginia)")],
           [("sku", "good1"), ("queryRegion", "Europe (Ireland)")],
           [("sku", "good2"), ("queryRegion", "Europe (Ireland)")]]⟩,
        ⟨"AmazonEC2", ["us-east-1", "eu-west-1"], 4⟩⟩ := by
  have h := multi_region_fanout evMulti testApi "/wd" "u"
    ["us-east-1", "eu-west-1"] ["US East (N. Virginia)", "Europe (Ireland)"]
    rfl rfl (by decide)
  exact ⟨by simpa using h.1, by decide, by decide⟩

/-- C6: every query's filter set is the normalized caller filters with the
location filter pinned (by dict assignment, so a caller-supplied location
is overridden); for a single resolved region the location is merged into
`final_filters` before the loop (so it also lands in `filters_applied`),
while for several regions `filters_applied` stays the bare normalized
filters. -/
theorem location_filter_pinning (event : Event) (api : PricingAPI) (wd u : String)
    (rs ds : List String) (hrs : event.regions = some rs)
    (hres : resolveRegions rs = Except.ok ds) (hne : ds ≠ []) :
    (∀ q ∈ (handler event api wd u).queries, ∃ d ∈ ds,
      q.filters = buildApiFilters (dictSet (normalize_filters_for_service
        (event.filters.getD [])) "location" d)) ∧
    (∀ d, dictGet? (queryFiltersFor (finalFiltersFor event ds) d) "location" = some d) ∧
    (∃ pf, (handler event api wd u).putFile = some pf ∧
      pf.data.filters_applied = finalFiltersFor event ds) ∧
    (∀ d, ds = [d] →
      finalFiltersFor event ds =
        dictSet (normalize_filters_for_service (event.filters.getD [])) "location" d) ∧
    (1 < ds.length →
      finalFiltersFor event ds = normalize_filters_for_service (event.filters.getD [])) := by
  have hres2 : resolveRegions (event.regions.getD ["us-east-1"]) = Except.ok ds := by
    rw [hrs, Option.getD_some]
    exact hres
  have hsingle : ∀ d, ds = [d] →
      finalFiltersFor event ds =
        dictSet (normalize_filters_for_service (event.filters.getD [])) "location" d := by
    intro d hd
    subst hd
    simp [finalFiltersFor]
  have hmulti : 1 < ds.length →
      finalFiltersFor event ds = normalize_filters_for_service (event.filters.getD []) := by
    intro hlen
    unfold finalFiltersFor
    rw [if_neg (by omega)]
  rw [handler_eq_handlerWithRegions event api wd u ds hres2 hne]
  refine ⟨?_, fun d => dictGet_dictSet_self _ _ _, ⟨_, rfl, rfl⟩, hsingle, hmulti⟩
  intro q hq
  have hqs : (handlerWithRegions event api wd u ds ds).queries
      = ds.map (queryCallFor event.service_code (finalFiltersFor event ds)
          (event.max_records.getD 50)) := rfl
  rw [hqs] at hq
  rcases List.mem_map.mp hq with ⟨d, hd, hqd⟩
  refine ⟨d, hd, ?_⟩
  rw [← hqd]
  show buildApiFilters (queryFiltersFor (finalFiltersFor event ds) d) = _
  rcases Nat.lt_or_ge 1 ds.length with hlen | hlen
  · rw [hmulti hlen]
    rfl
  · have : ds.length = 1 := by
      cases ds with
      | nil => exact absurd rfl hne
      | cons a t =>
        simp only [List.length_cons] at hlen ⊢
        omega
    rcases List.length_eq_one.mp this with ⟨d₀, hd₀⟩
    have hdd : d = d₀ := by
      rw [hd₀] at hd
      simpa using hd
    subst hdd
    rw [hsingle d hd₀]
    unfold queryFiltersFor
    rw [dictSet_dictSet_same]

/-- C6 witness: for the single region `us-east-1` the location filter is
merged into `final_filters` before the loop and pins the query. -/
theorem location_filter_pinning_witness :
    dictGet? (queryFiltersFor (finalFiltersFor evSingle ["US East (N. Virginia)"])
        "US East (N. Virginia)") "location" = some "US East (N. Virginia)" ∧
    finalFiltersFor evSingle ["US East (N. Virginia)"]
      = [("location", "US East (N. Virginia)")] ∧
    (handler evSingle testApi "/wd" "u").queries =
      [⟨"AmazonEC2", [⟨"TERM_MATCH", "location", "US East (N. Virginia)"⟩], 50⟩] := by
  have h := location_filter_pinning evSingle testApi "/wd" "u" ["us-east-1"]
    ["US East (N. Virginia)"] rfl rfl (by decide)
  exact ⟨h.2.1 "US East (N. Virginia)", by decide, by decide⟩

/-- C5: on success the persisted envelope holds the full aggregate with
`record_count` equal to its length, while the response holds exactly the
first `min(n, 10)` records and the same `record_count`. -/
theorem summary_truncation (event : Event) (api : PricingAPI) (wd u : String)
    (rs ds : List String) (hrs : event.regions = some rs)
    (hres : resolveRegions rs = Except.ok ds) (hne : ds ≠ []) :
    ∃ pf resp, (handler event api wd u).putFile = some pf ∧
      (handler event api wd u).result = Except.ok resp ∧
      pf.data.pricing_records = aggregateRecords event api ds ∧
      resp.pricing_records = pf.data.pricing_records.take 10 ∧
      resp.pricing_records.length = min pf.data.pricing_records.length 10 ∧
      resp.record_count = pf.data.pricing_records.length ∧
      pf.data.record_count = pf.data.pricing_records.length := by
  have hres2 : resolveRegions (event.regions.getD ["us-east-1"]) = Except.ok ds := by
    rw [hrs, Option.getD_some]
    exact hres
  rw [handler_eq_handlerWithRegions event api wd u ds hres2 hne]
  refine ⟨_, _, rfl, rfl, rfl, ?_, ?_, rfl, rfl⟩
  · show (if 10 < (aggregateRecords event api ds).length
        then (aggregateRecords event api ds).take 10
        else aggregateRecords event api ds) = (aggregateRecords event api ds).take 10
    split_ifs with h
    · rfl
    · exact (List.take_of_length_le (by omega)).symm
  · show (if 10 < (aggregateRecords event api ds).length
        then (aggregateRecords event api ds).take 10
        else aggregateRecords event api ds).length
      = min (aggregateRecords event api ds).length 10
    split_ifs with h
    · rw [List.length_take]
      omega
    · omega

/-- A pricing API and event for the truncation witness: one query pass
returning twelve well-formed documents. -/
def wideApi : PricingAPI :=
  ⟨fun _ _ _ => [["r01", "r02", "r03", "r04", "r05", "r06",
                  "r07", "r08", "r09", "r10", "r11", "r12"]],
    fun s => some [("id", s)]⟩

/-- C5 witness: with twelve records the response carries the first ten and
the envelope all twelve, both counting twelve. -/
theorem summary_truncation_witness :
    ∃ pf resp,
      (handler evSingle wideApi "/wd" "u").putFile = some pf ∧
      (handler evSingle wideApi "/wd" "u").result = Except.ok resp ∧
      pf.data.pricing_records = aggregateRecords evSingle wideApi ["US East (N. Virginia)"] ∧
      resp.pricing_records = pf.data.pricing_records.take 10 ∧
      resp.pricing_records.length = min pf.data.pricing_records.length 10 ∧
      resp.record_count = pf.data.pricing_records.length ∧
      pf.data.record_count = pf.data.pricing_records.length ∧
      pf.data.record_count = 12 ∧
      resp.pricing_records.length = 10 := by
  obtain ⟨pf, resp, h1, h2, h3, h4, h5, h6, h7⟩ :=
    summary_truncation evSingle wideApi "/wd" "u" ["us-east-1"]
      ["US East (N. Virginia)"] rfl rfl (by decide)
  refine ⟨pf, resp, h1, h2, h3, h4, h5, h6, h7, ?_, ?_⟩
  · rw [h7, h3]
    decide
  · rw [h5, h3]
    decide

/-- C8: when the event carries no `result_file_path`, the handler joins the
working directory with a name built from the service code and the uuid
token, and that one path value appears in both the `put_file` call and the
response. -/
theorem default_path_generation (event : Event) (api : PricingAPI) (wd u : String)
    (rs ds : List String) (hrs : event.regions = some rs)
    (hres : resolveRegions rs = Except.ok ds) (hne : ds ≠ [])
    (hpath : event.result_file_path = none) :
    ∃ pf resp, (handler event api wd u).putFile = some pf ∧
      (handler event api wd u).result = Except.ok resp ∧
      pf.file_path = osPathJoin wd
        ("aws_pricing_" ++ event.service_code ++ "_" ++ u ++ ".json") ∧
      resp.result_file_path = pf.file_path := by
  have hres2 : resolveRegions (event.regions.getD ["us-east-1"]) = Except.ok ds := by
    rw [hrs, Option.getD_some]
    exact hres
  rw [handler_eq_handlerWithRegions event api wd u ds hres2 hne]
  refine ⟨_, _, rfl, rfl, ?_, rfl⟩
  show (match event.result_file_path with
    | some p => if p = "" then osPathJoin wd
        ("aws_pricing_" ++ event.service_code ++ "_" ++ u ++ ".json") else p
    | none => osPathJoin wd
        ("aws_pricing_" ++ event.service_code ++ "_" ++ u ++ ".json")) = _
  rw [hpath]

/-- C8 witness: the generated path for `evSingle` under `/wd` with token
`u` is `/wd/aws_pricing_AmazonEC2_u.json` in both places. -/
theorem default_path_generation_witness :
    ∃ pf resp, (handler evSingle testApi "/wd" "u").putFile = some pf ∧
      (handler evSingle testApi "/wd" "u").result = Except.ok resp ∧
      pf.file_path = osPathJoin "/wd"
        ("aws_pricing_" ++ evSingle.service_code ++ "_" ++ "u" ++ ".json") ∧
      resp.result_file_path = pf.file_path :=
  default_path_generation evSingle testApi "/wd" "u" ["us-east-1"]
    ["US East (N. Virginia)"] rfl rfl (by decide) rfl

/-- A pricing API returning two pages of one record each, so the total can
exceed a `max_records` of 1. -/
def pagedApi : PricingAPI :=
  ⟨fun _ _ _ => [["a"], ["b"]], fun s => some [("id", s)]⟩

/-- A single-region request with `max_records = 1`. -/
def evPaged : Event :=
  ⟨"AmazonEC2", some ["us-east-1"], none, some 1, none⟩

/-- C7: each region's paginated fetch passes the caller's `max_records`
(default 50) as `MaxResults`, and every parseable record of every returned
page lands in the aggregate — so `max_records` caps the page-iteration
call, not the aggregate total, which can exceed it. -/
theorem pagination_max_records (event : Event) (api : PricingAPI) (wd u : String)
    (rs ds : List String) (hrs : event.regions = some rs)
    (hres : resolveRegions rs = Except.ok ds) (hne : ds ≠ []) :
    (∀ q ∈ (handler event api wd u).queries,
      q.maxResults = event.max_records.getD 50) ∧
    (∃ pf, (handler event api wd u).putFile = some pf ∧
      pf.data.pricing_records = aggregateRecords event api ds ∧
      ∀ d ∈ ds,
        ∀ page ∈ api.getProducts event.service_code
          (buildApiFilters (queryFiltersFor (finalFiltersFor event ds) d))
          (event.max_records.getD 50),
        ∀ raw ∈ page, ∀ doc, parseAndTag api.parse d raw = some doc →
          doc ∈ pf.data.pricing_records) ∧
    (∃ pf₂, (handler evPaged pagedApi wd u).putFile = some pf₂ ∧
      evPaged.max_records = some 1 ∧ 1 < pf₂.data.record_count) := by
  have hres2 : resolveRegions (event.regions.getD ["us-east-1"]) = Except.ok ds := by
    rw [hrs, Option.getD_some]
    exact hres
  rw [handler_eq_handlerWithRegions event api wd u ds hres2 hne]
  refine ⟨?_, ⟨_, rfl, rfl, ?_⟩, ⟨_, rfl, rfl, ?_⟩⟩
  case refine_3 =>
    show 1 < (aggregateRecords evPaged pagedApi ["US East (N. Virginia)"]).length
    decide
  · intro q hq
    have hqs : (handlerWithRegions event api wd u ds ds).queries
        = ds.map (queryCallFor event.service_code (finalFiltersFor event ds)
            (event.max_records.getD 50)) := rfl
    rw [hqs] at hq
    rcases List.mem_map.mp hq with ⟨d, _, hqd⟩
    rw [← hqd]
    rfl
  · intro d hd page hpage raw hraw doc hdoc
    show doc ∈ aggregateRecords event api ds
    unfold aggregateRecords
    refine List.mem_flatten.mpr
      ⟨fetchRegionRecords api event.service_code (finalFiltersFor event ds)
          (event.max_records.getD 50) d,
        List.mem_map.mpr ⟨d, hd, rfl⟩, ?_⟩
    simp only [fetchRegionRecords]
    refine List.mem_flatten.mpr
      ⟨page.filterMap (parseAndTag api.parse d),
        List.mem_map.mpr ⟨page, hpage, rfl⟩, ?_⟩
    exact List.mem_filterMap.mpr ⟨raw, hraw, hdoc⟩

/-- C7 witness: with `max_records = 1` and two one-record pages, both
records are aggregated and the total 2 exceeds the cap 1. -/
theorem pagination_max_records_witness :
    (∀ q ∈ (handler evPaged pagedApi "/wd" "u").queries, q.maxResults = 1) ∧
    ∃ pf₂, (handler evPaged pagedApi "/wd" "u").putFile = some pf₂ ∧
      evPaged.max_records = some 1 ∧ 1 < pf₂.data.record_count := by
  have h := pagination_max_records evPaged pagedApi "/wd" "u" ["us-east-1"]
    ["US East (N. Virginia)"] rfl rfl (by decide)
  exact ⟨fun q hq => h.1 q hq, h.2.2⟩

/-- C4: malformed documents are skipped without aborting the invocation:
each region's record list is exactly the parseable documents of its pages
(each tagged with `queryRegion` set to that region's display name), and the
count therefore excludes the skipped documents. -/
theorem malformed_records_skipped (event : Event) (api : PricingAPI) (wd u : String)
    (rs ds : List String) (hrs : event.regions = some rs)
    (hres : resolveRegions rs = Except.ok ds) (hne : ds ≠ []) :
    ∃ resp pf, (handler event api wd u).result = Except.ok resp ∧
      (handler event api wd u).putFile = some pf ∧
      pf.data.pricing_records = aggregateRecords event api ds ∧
      (∀ d, fetchRegionRecords api event.service_code (finalFiltersFor event ds)
          (event.max_records.getD 50) d
        = ((api.getProducts event.service_code
            (buildApiFilters (queryFiltersFor (finalFiltersFor event ds) d))
            (event.max_records.getD 50)).flatten).filterMap
              (parseAndTag api.parse d)) ∧
      (∀ rec ∈ pf.data.pricing_records, ∃ d ∈ ds,
        dictGet? rec "queryRegion" = some d) ∧
      (∀ d, (fetchRegionRecords api event.service_code (finalFiltersFor event ds)
          (event.max_records.getD 50) d).length
        = ((api.getProducts event.service_code
            (buildApiFilters (queryFiltersFor (finalFiltersFor event ds) d))
            (event.max_records.getD 50)).flatten).countP
              (fun s => (api.parse s).isSome)) := by
  have hres2 : resolveRegions (event.regions.getD ["us-east-1"]) = Except.ok ds := by
    rw [hrs, Option.getD_some]
    exact hres
  have hfetch : ∀ d, fetchRegionRecords api event.service_code (finalFiltersFor event ds)
      (event.max_records.getD 50) d
    = ((api.getProducts event.service_code
        (buildApiFilters (queryFiltersFor (finalFiltersFor event ds) d))
        (event.max_records.getD 50)).flatten).filterMap (parseAndTag api.parse d) := by
    intro d
    simp only [fetchRegionRecords]
    rw [List.filterMap_flatten]
  rw [handler_eq_handlerWithRegions event api wd u ds hres2 hne]
  refine ⟨_, _, rfl, rfl, rfl, hfetch, ?_, ?_⟩
  · intro rec hrec
    have hrec2 : rec ∈ aggregateRecords event api ds := hrec
    unfold aggregateRecords at hrec2
    rcases List.mem_flatten.mp hrec2 with ⟨l, hl, hrecl⟩
    rcases List.mem_map.mp hl with ⟨d, hd, hld⟩
    refine ⟨d, hd, ?_⟩
    rw [← hld, hfetch d] at hrecl
    rcases List.mem_filterMap.mp hrecl with ⟨raw, _, hparse⟩
    simp only [parseAndTag] at hparse
    rcases Option.map_eq_some'.mp hparse with ⟨doc, _, hdoc⟩
    rw [← hdoc]
    exact dictGet_dictSet_self _ _ _
  · intro d
    rw [hfetch d, List.length_filterMap_eq_countP]
    refine List.countP_congr ?_
    intro raw _
    simp [parseAndTag, Option.isSome_map]

/-- C4 witness: a page holding one well-formed and one malformed document
yields a single aggregated record, tagged with its query region, with the
count excluding the malformed one, and the invocation still succeeds. -/
theorem malformed_records_skipped_witness :
    ∃ resp pf, (handler evSingle testApi "/wd" "u").result = Except.ok resp ∧
      (handler evSingle testApi "/wd" "u").putFile = some pf ∧
      pf.data.pricing_records =
        aggregateRecords evSingle testApi ["US East (N. Virginia)"] ∧
      aggregateRecords evSingle testApi ["US East (N. Virginia)"] =
        [[("sku", "good1"), ("queryRegion", "US East (N. Virginia)")],
         [("sku", "good2"), ("queryRegion", "US East (N. Virginia)")]] ∧
      testApi.parse "bad" = none := by
  obtain ⟨resp, pf, h1, h2, h3, _, _, _⟩ :=
    malformed_records_skipped evSingle testApi "/wd" "u" ["us-east-1"]
      ["US East (N. Virginia)"] rfl rfl (by decide)
  exact ⟨resp, pf, h1, h2, h3, by decide, by decide⟩

end AwsPricing
